import Mathlib

/-!
Verification of the HDFS pipe adapter (`pipe/hdfs.go`): the retry wrapper
(`retriable`, `withRetry`), the filesystem adapter methods (`OpenRead`,
`OpenWrite`, `MkdirAll`, `Rename`, `Remove`, `Close`), and the consumer's
polling loop (`waitAndOpenNextFile`, `FetchNext`).

Errors are modelled as `Option String` (Go's `error`: `none` is `nil`,
`some s` an error whose `Error()` text is `s`).  Since the wrapped
operation `fn` is re-invoked on every retry and may return a different
result each time, an operation is modelled as a stream
`attempts : Nat → Option String` giving the result of its k-th invocation.
Sleeps are made observable by returning, alongside the final error, the
number of extra attempts performed and the total milliseconds slept.
-/

/-- Whether the first list is a prefix of the second (over characters). -/
def isPrefixL : List Char → List Char → Bool
  | [], _ => true
  | _ :: _, [] => false
  | a :: as, b :: bs => a == b && isPrefixL as bs

/-- Whether `sub` occurs contiguously somewhere inside the second list. -/
def occursIn (sub : List Char) : List Char → Bool
  | [] => sub.isEmpty
  | c :: cs => isPrefixL sub (c :: cs) || occursIn sub cs

/-- Go's `strings.Contains(s, sub)`: `sub` occurs as a substring of `s`. -/
def containsSub (s sub : String) : Bool :=
  occursIn sub.toList s.toList

/-- Go's `strings.HasSuffix(s, suf)`: `s` ends with `suf`. -/
def hasSuffix (s suf : String) : Bool :=
  isPrefixL suf.toList.reverse s.toList.reverse

/-- The transient-marker text for a name-node in standby state. -/
def standbyMarker : String := "org.apache.hadoop.ipc.StandbyException"

/-- The transient-marker text for a cluster-requested retry. -/
def retriableMarker : String := "org.apache.hadoop.ipc.RetriableException"

/-- Translation of `retriable` (hdfs.go:64-67): an error is transient iff its
text contains the standby-exception or the retriable-exception marker. -/
def retriable (e : String) : Bool :=
  containsSub e standbyMarker || containsSub e retriableMarker

/-- Translation of `var retryTimeout = 10 //seconds` (hdfs.go:62). -/
def retryTimeout : Nat := 10

/-- The fixed sleep interval of `withRetry`, in milliseconds (hdfs.go:72). -/
def retryIntervalMs : Nat := 100

/-- The loop of `withRetry` (hdfs.go:71-74).  `rem` is the number of loop
iterations still allowed (`retryTimeout*10 - i` in the Go code), `k` the index
of the next invocation of `fn`, `err` the current error.  Returns the final
error, the number of extra attempts made, and the milliseconds slept. -/
def withRetryGo (attempts : Nat → Option String) :
    Nat → Nat → Option String → Option String × Nat × Nat
  | _, _, none => (none, 0, 0)
  | 0, _, some e => (some e, 0, 0)
  | rem + 1, k, some e =>
    if retriable e then
      let r := withRetryGo attempts rem (k + 1) (attempts k)
      (r.1, r.2.1 + 1, r.2.2 + retryIntervalMs)
    else
      (some e, 0, 0)

/-- Translation of `withRetry` (hdfs.go:69-76): run `fn` once, then while the
error is non-nil, transient, and fewer than `retryTimeout*10` retries have
happened, sleep 100 ms and re-run `fn`.  Returns the final error together with
the number of extra attempts and total milliseconds slept. -/
def withRetry (attempts : Nat → Option String) : Option String × Nat × Nat :=
  withRetryGo attempts (retryTimeout * 10) 1 (attempts 0)

section RetryLemmas

/-- If the current error is nil the loop exits at once. -/
theorem withRetryGo_none (attempts : Nat → Option String) (rem k : Nat) :
    withRetryGo attempts rem k none = (none, 0, 0) := by
  cases rem <;> rfl

/-- If the current error is non-transient the loop exits at once. -/
theorem withRetryGo_nonretriable (attempts : Nat → Option String) (rem k : Nat)
    (e : String) (he : retriable e = false) :
    withRetryGo attempts rem k (some e) = (some e, 0, 0) := by
  cases rem with
  | zero => rfl
  | succ n => simp [withRetryGo, he]

/-- Unfolding of one transient-failure iteration. -/
theorem withRetryGo_step (attempts : Nat → Option String) (rem k : Nat)
    (e : String) (he : retriable e = true) :
    withRetryGo attempts (rem + 1) k (some e) =
      ((withRetryGo attempts rem (k + 1) (attempts k)).1,
       (withRetryGo attempts rem (k + 1) (attempts k)).2.1 + 1,
       (withRetryGo attempts rem (k + 1) (attempts k)).2.2 + retryIntervalMs) := by
  simp [withRetryGo, he]

/-- If every attempt in the window fails transiently, the loop runs its full
budget: the result is the final attempt's error, with `rem` extra attempts and
`rem * 100` ms slept. -/
theorem withRetryGo_all_transient (attempts : Nat → Option String) :
    ∀ rem k, (∀ j, j < rem → ∃ e, attempts (k + j) = some e ∧ retriable e = true) →
    ∀ e, retriable e = true →
    withRetryGo attempts rem k (some e) =
      (if rem = 0 then some e else attempts (k + rem - 1), rem, rem * retryIntervalMs) := by
  intro rem
  induction rem with
  | zero => intro k _ e _; simp [withRetryGo]
  | succ n ih =>
    intro k hall e he
    rw [withRetryGo_step attempts n k e he]
    obtain ⟨e0, he0, hre0⟩ := hall 0 (Nat.succ_pos n)
    simp only [Nat.add_zero] at he0
    rw [he0]
    have hall' : ∀ j, j < n → ∃ e, attempts (k + 1 + j) = some e ∧ retriable e = true := by
      intro j hj
      have := hall (j + 1) (by omega)
      simpa [Nat.add_assoc, Nat.add_comm 1 j] using this
    rw [ih (k + 1) hall' e0 hre0]
    cases n with
    | zero =>
      simp [he0]
    | succ m =>
      have h1 : k + 1 + (m + 1) - 1 = k + (m + 1 + 1) - 1 := by omega
      simp only [Nat.succ_ne_zero, if_false, h1, Prod.mk.injEq]
      exact ⟨trivial, trivial, by ring⟩

/-- Starting from a transient error, if attempts `k, ..., k+j-1` fail
transiently and attempt `k+j` is nil or non-transient, the loop stops right
after attempt `k+j`, having made `j+1` extra attempts and slept
`(j+1) * 100` ms. -/
theorem withRetryGo_stops (attempts : Nat → Option String) :
    ∀ j rem k e0, retriable e0 = true → j < rem →
    (∀ i, i < j → ∃ e, attempts (k + i) = some e ∧ retriable e = true) →
    (∀ e, attempts (k + j) = some e → retriable e = false) →
    withRetryGo attempts rem k (some e0) =
      (attempts (k + j), j + 1, (j + 1) * retryIntervalMs) := by
  intro j
  induction j with
  | zero =>
    intro rem k e0 he0 hlt _ hstop
    obtain ⟨rem', rfl⟩ : ∃ rem', rem = rem' + 1 := ⟨rem - 1, by omega⟩
    rw [withRetryGo_step attempts rem' k e0 he0]
    simp only [Nat.add_zero] at hstop ⊢
    cases hk : attempts k with
    | none => simp [withRetryGo_none]
    | some e =>
      rw [withRetryGo_nonretriable attempts rem' (k + 1) e (hstop e hk)]
      simp
  | succ m ih =>
    intro rem k e0 he0 hlt hall hstop
    obtain ⟨rem', rfl⟩ : ∃ rem', rem = rem' + 1 := ⟨rem - 1, by omega⟩
    rw [withRetryGo_step attempts rem' k e0 he0]
    obtain ⟨e1, he1, hre1⟩ := hall 0 (Nat.succ_pos m)
    simp only [Nat.add_zero] at he1
    rw [he1]
    have hall' : ∀ i, i < m → ∃ e, attempts (k + 1 + i) = some e ∧ retriable e = true := by
      intro i hi
      have := hall (i + 1) (by omega)
      simpa [Nat.add_assoc, Nat.add_comm 1 i] using this
    have hstop' : ∀ e, attempts (k + 1 + m) = some e → retriable e = false := by
      intro e hee
      exact hstop e (by rw [show k + (m + 1) = k + 1 + m by omega]; exact hee)
    rw [ih rem' (k + 1) e1 hre1 (by omega) hall' hstop']
    have h1 : k + 1 + m = k + (m + 1) := by omega
    simp only [h1, Prod.mk.injEq]
    exact ⟨trivial, trivial, by ring⟩

end RetryLemmas

/-!
The filesystem adapter.  The underlying HDFS client is an external
collaborator; it is represented by oracles giving the outcome of each
primitive call.  Each adapter method additionally returns the list of
primitive calls it performed, so that call order, fallback behaviour and
the absence of retries are observable.
-/

/-- A primitive call made by the adapter against the HDFS client. -/
inductive HCall where
  | append (name : String)
  | create (name : String)
  | openR (name : String)
  | seek (off : Nat)
  | sleep (ms : Nat)
deriving DecidableEq

/-- Write-side client oracle: outcome of `Client.Append` and `Client.Create`
on a given name (`Except` error text or a stream-handle id). -/
structure WriteClient where
  append : String → Except String Nat
  create : String → Except String Nat

/-- Translation of `OpenWrite` (hdfs.go:54-60): try `Append(name)`; if it
fails, `Create(name)`; return the resulting stream, a nil seeker, and the
error of the last primitive tried, together with the calls performed. -/
def OpenWrite (c : WriteClient) (name : String) :
    (Option Nat × Option Unit × Option String) × List HCall :=
  match c.append name with
  | .ok f => ((some f, none, none), [.append name])
  | .error _ =>
    match c.create name with
    | .ok f => ((some f, none, none), [.append name, .create name])
    | .error e => ((none, none, some e), [.append name, .create name])

/-- An open HDFS file handle: its content (bytes) and the current position. -/
structure RFile where
  content : List Nat
  pos : Nat
deriving DecidableEq

/-- Modelled from the spec: the client's `Open` — the read side of the
distributed-filesystem client is external to this core; per §4.2 opening
fails exactly when the file does not exist, and a fresh handle is
positioned at offset 0. `files` maps each existing path to its bytes. -/
def clientOpen (files : String → Option (List Nat)) (name : String) :
    Except String RFile :=
  match files name with
  | none => .error "file does not exist"
  | some c => .ok { content := c, pos := 0 }

/-- Modelled from the spec: the client's `Seek(off, SEEK_SET)` — per §4.2 the
seek fails exactly when the target exceeds the file length; otherwise it
repositions the handle to the absolute offset `off`. -/
def fileSeek (f : RFile) (off : Nat) : Except String RFile :=
  if off ≤ f.content.length then .ok { f with pos := off }
  else .error "seek target exceeds file length"

/-- Translation of `OpenRead` (hdfs.go:40-52): `Open(name)`, propagating its
error, then `Seek(offset, SEEK_SET)`, propagating its error, then return the
positioned handle; also returns the calls performed. -/
def OpenRead (files : String → Option (List Nat)) (name : String) (off : Nat) :
    Except String RFile × List HCall :=
  match clientOpen files name with
  | .error e => (.error e, [.openR name])
  | .ok f =>
    match fileSeek f off with
    | .error e => (.error e, [.openR name, .seek off])
    | .ok f2 => (.ok f2, [.openR name, .seek off])

/-- Reading one byte from an open handle: the byte at the current position
(if any) and the advanced handle. -/
def readByte (f : RFile) : Option (Nat × RFile) :=
  (f.content.get? f.pos).map (fun b => (b, { f with pos := f.pos + 1 }))

/-- Metadata-side client oracle: outcome of the k-th invocation of each
underlying metadata primitive (they are re-invoked by the retry wrapper, so
each is a stream indexed by the attempt number). -/
structure MetaClient where
  mkdirAllA : String → Nat → Option String
  renameA : String → String → Nat → Option String
  removeA : String → Nat → Option String
  closeA : Nat → Option String

/-- Translation of `MkdirAll` (hdfs.go:78-80): the client call wrapped in
`withRetry`. -/
def MkdirAll (c : MetaClient) (path : String) : Option String × Nat × Nat :=
  withRetry (c.mkdirAllA path)

/-- Translation of `Rename` (hdfs.go:82-84): the client call wrapped in
`withRetry`. -/
def Rename (c : MetaClient) (oldpath newpath : String) : Option String × Nat × Nat :=
  withRetry (c.renameA oldpath newpath)

/-- Translation of `Remove` (hdfs.go:86-88): the client call wrapped in
`withRetry`. -/
def Remove (c : MetaClient) (path : String) : Option String × Nat × Nat :=
  withRetry (c.removeA path)

/-- Translation of `Close` (hdfs.go:90-92): closing the write stream, wrapped
in `withRetry`. -/
def Close (c : MetaClient) : Option String × Nat × Nat :=
  withRetry c.closeA

/-!
The consumer's polling loop.  The discovery primitive `nextFile`, the
record decoder `fetchNextLow` and the cursor initialiser `openFile` live in
the generic file-pipe layer (`file.go`), which is not part of this core;
they are represented at their interface boundary.  Discovery is a finite
list of observed `nextFile` results consumed one per loop iteration;
running out of the list means the loop is still spinning (`none`), so
"returns within every finite observation window" captures termination.
-/

/-- One result of the discovery primitive `nextFile(topic, current)`:
the candidate file name and the error (`none` is Go's `nil`).  Modelled
from the spec: on cancellation `nextFile` returns `("", none)`. -/
abbrev DiscResult := String × Option String

/-- The reserved in-progress suffix marker `".open"` (hdfs.go:145). -/
def inProgressMark : String := ".open"

/-- The consumer's backoff sleep between discovery polls, in milliseconds
(hdfs.go:152). -/
def backoffMs : Nat := 200

/-- The consumer-visible state of a `fileConsumer`: current file name
(cursor), the stored error `p.err`, and the log of `openFile` calls
(file name and offset). -/
structure ConsumerState where
  name : String
  err : Option String
  opens : List (String × Nat)
deriving DecidableEq

/-- Modelled from the spec: `openFile(name, offset)` (file.go, external to
this core) opens the candidate at the given offset and advances the
consumer's cursor to it; here it records the call and moves the cursor. -/
def openFile (s : ConsumerState) (fn : String) (off : Nat) : ConsumerState :=
  { s with name := fn, opens := s.opens ++ [(fn, off)] }

/-- Translation of `waitAndOpenNextFile` (hdfs.go:137-154) over a finite
list of discovery results.  Per iteration: a discovery error is stored on
the consumer and the loop returns `true`; a non-empty candidate without the
`".open"` suffix is opened at offset 0 and the loop returns `true`;
otherwise the loop sleeps 200 ms and retries.  Returns `none` when the
observation list is exhausted without the loop returning, plus the
unconsumed discovery results and the total milliseconds slept. -/
def waitAndOpenNextFile (s : ConsumerState) :
    List DiscResult → Option (Bool × ConsumerState) × List DiscResult × Nat
  | [] => (none, [], 0)
  | (fn, e) :: rest =>
    if e.isSome then
      (some (true, { s with err := e }), rest, 0)
    else if fn != "" && !(hasSuffix fn inProgressMark) then
      (some (true, openFile s fn 0), rest, 0)
    else
      let r := waitAndOpenNextFile s rest
      (r.1, r.2.1, r.2.2 + backoffMs)

/-- Translation of `FetchNext` (hdfs.go:157-169).  `low j` is the result of
the j-th call to `fetchNextLow` (modelled from the spec: `true` when the
currently open file still yields a record, external to this core); `fuel`
bounds the outer loop iterations observed.  Mirrors:
return `true` if `fetchNextLow()`; return `false` if
`!waitAndOpenNextFile()`; return `true` if `p.err != nil`; else loop. -/
def fetchNextGo (low : Nat → Bool) :
    Nat → Nat → ConsumerState → List DiscResult → Option (Bool × ConsumerState)
  | 0, _, _, _ => none
  | fuel + 1, j, s, ds =>
    if low j then some (true, s)
    else
      match waitAndOpenNextFile s ds with
      | (none, _, _) => none
      | (some (b, s2), rest, _) =>
        if b = false then some (false, s2)
        else if s2.err.isSome then some (true, s2)
        else fetchNextGo low fuel (j + 1) s2 rest

/-- Wrapper: `FetchNext` observed from the first `fetchNextLow` call. -/
def FetchNext (low : Nat → Bool) (fuel : Nat) (s : ConsumerState)
    (ds : List DiscResult) : Option (Bool × ConsumerState) :=
  fetchNextGo low fuel 0 s ds

/-- The discovery stream after cancellation: every `nextFile` call returns
an empty candidate and no error. -/
def cancelStream (n : Nat) : List DiscResult :=
  List.replicate n ("", none)

/-- A fresh consumer state: no cursor, no error, nothing opened. -/
def initialState : ConsumerState := { name := "", err := none, opens := [] }

section ConsumerLemmas

/-- Lemma: `waitAndOpenNextFile` can only ever return `true`: every exit path of
the loop body returns `true` (hdfs.go:141,147); there is no `return false`. -/
theorem wait_fst_true (s : ConsumerState) :
    ∀ ds b s2, (waitAndOpenNextFile s ds).1 = some (b, s2) → b = true := by
  intro ds
  induction ds with
  | nil => intro b s2 h; exact Option.noConfusion h
  | cons d rest' ih =>
    obtain ⟨fn, e⟩ := d
    intro b s2 h
    simp only [waitAndOpenNextFile] at h
    split at h
    · exact (congrArg Prod.fst (Option.some.inj h)).symm
    · split at h
      · exact (congrArg Prod.fst (Option.some.inj h)).symm
      · exact ih b s2 h

/-- On the cancellation stream (every discovery result empty and nil) the
wait loop never returns: it sleeps 200 ms per observed result and spins. -/
theorem wait_sleep_step (s : ConsumerState) (fn : String) (tail : List DiscResult)
    (hc : (fn != "" && !(hasSuffix fn inProgressMark)) = false) :
    waitAndOpenNextFile s ((fn, none) :: tail) =
      ((waitAndOpenNextFile s tail).1, (waitAndOpenNextFile s tail).2.1,
       (waitAndOpenNextFile s tail).2.2 + backoffMs) := by
  simp [waitAndOpenNextFile, hc]

theorem wait_cancel (s : ConsumerState) :
    ∀ n, waitAndOpenNextFile s (cancelStream n) = (none, [], n * backoffMs) := by
  intro n
  induction n with
  | zero => simp [cancelStream, waitAndOpenNextFile]
  | succ m ih =>
    show waitAndOpenNextFile s (("", none) :: cancelStream m) = _
    rw [wait_sleep_step s "" (cancelStream m) (by decide), ih]
    simp only [Prod.mk.injEq]
    refine ⟨trivial, trivial, ?_⟩
    show m * backoffMs + backoffMs = (m + 1) * backoffMs
    ring

/-- Every file the wait loop opens was already opened before, or is a
non-empty candidate without the in-progress suffix, opened at offset 0. -/
theorem wait_opens_ok (s : ConsumerState) :
    ∀ ds b s2, (waitAndOpenNextFile s ds).1 = some (b, s2) →
      ∀ q, q ∈ s2.opens →
        q ∈ s.opens ∨ (q.1 ≠ "" ∧ hasSuffix q.1 inProgressMark = false ∧ q.2 = 0) := by
  intro ds
  induction ds with
  | nil => intro b s2 h; exact Option.noConfusion h
  | cons d rest' ih =>
    obtain ⟨fn, e⟩ := d
    intro b s2 h q hq
    simp only [waitAndOpenNextFile] at h
    split at h
    · have hs : ({ s with err := e } : ConsumerState) = s2 :=
        congrArg Prod.snd (Option.some.inj h)
      subst hs
      exact Or.inl hq
    · split at h
      · next hne hc =>
        have hs : openFile s fn 0 = s2 := congrArg Prod.snd (Option.some.inj h)
        subst hs
        have hc1 : (fn != "") = true := (Bool.and_eq_true _ _).mp hc |>.1
        have hc2 : (!(hasSuffix fn inProgressMark)) = true :=
          (Bool.and_eq_true _ _).mp hc |>.2
        simp only [openFile, List.mem_append, List.mem_singleton] at hq
        rcases hq with hq | hq
        · exact Or.inl hq
        · subst hq
          refine Or.inr ⟨?_, ?_, rfl⟩
          · exact bne_iff_ne.mp hc1
          · revert hc2; cases hasSuffix fn inProgressMark <;> simp
      · exact ih b s2 h q hq

/-- While discovery only shows in-progress candidates, the wait loop sleeps
200 ms per poll and retries; as soon as discovery shows a finalized
candidate, the loop opens it at offset 0 and returns `true`. -/
theorem wait_poll_then_open (s : ConsumerState) :
    ∀ pre : List DiscResult,
      (∀ d ∈ pre, d.2 = none ∧ hasSuffix d.1 inProgressMark = true) →
    ∀ g rest, g ≠ "" → hasSuffix g inProgressMark = false →
    waitAndOpenNextFile s (pre ++ (g, none) :: rest) =
      (some (true, openFile s g 0), rest, pre.length * backoffMs) := by
  intro pre
  induction pre with
  | nil =>
    intro _ g rest hg hg2
    simp [waitAndOpenNextFile, hg, hg2]
  | cons d pre' ih =>
    intro hpre g rest hg hg2
    obtain ⟨fn, e⟩ := d
    obtain ⟨h1, h2⟩ := hpre (fn, e) (List.mem_cons_self _ _)
    simp only at h1 h2
    subst h1
    rw [List.cons_append,
      wait_sleep_step s fn _ (by rw [h2]; simp),
      ih (fun d hd => hpre d (List.mem_cons_of_mem _ hd)) g rest hg hg2]
    simp only [List.length_cons, Prod.mk.injEq]
    refine ⟨trivial, trivial, ?_⟩
    show pre'.length * backoffMs + backoffMs = (pre'.length + 1) * backoffMs
    ring

/-- Lemma: `fetchNextGo` never returns `false`: `fetchNextLow` success returns
`true`, and the wait loop only ever returns `true`. -/
theorem fetchNextGo_true (low : Nat → Bool) :
    ∀ fuel j s ds b s2, fetchNextGo low fuel j s ds = some (b, s2) → b = true := by
  intro fuel
  induction fuel with
  | zero => intro j s ds b s2 h; exact Option.noConfusion h
  | succ n ih =>
    intro j s ds b s2 h
    simp only [fetchNextGo] at h
    split at h
    · exact (congrArg Prod.fst (Option.some.inj h)).symm
    · split at h
      · exact Option.noConfusion h
      · next b' s2' rest ms heq =>
        have hb' : b' = true :=
          wait_fst_true s ds b' s2' (by rw [heq])
        subst hb'
        simp only [Bool.true_eq_false, if_false] at h
        split at h
        · exact (congrArg Prod.fst (Option.some.inj h)).symm
        · exact ih (j + 1) s2' rest b s2 h

/-- After cancellation (`fetchNextLow` exhausted, discovery always empty and
nil) `FetchNext` never returns within any observation window. -/
theorem fetchNextGo_cancel :
    ∀ fuel j s n, fetchNextGo (fun _ => false) fuel j s (cancelStream n) = none := by
  intro fuel j s n
  cases fuel with
  | zero => rfl
  | succ m =>
    simp only [fetchNextGo, Bool.false_eq_true, if_false, wait_cancel s n]

/-- A discovery error is stored on the consumer and the wait loop returns
`true` at once, with no sleep. -/
theorem wait_error_first (s : ConsumerState) (fn e : String) (rest : List DiscResult) :
    waitAndOpenNextFile s ((fn, some e) :: rest) =
      (some (true, { s with err := some e }), rest, 0) := by
  simp [waitAndOpenNextFile]

/-- When the current file yields no record and the next discovery result is
an error, `FetchNext` stores the error and returns `true`. -/
theorem fetch_error_first (low : Nat → Bool) (fuel j : Nat) (s : ConsumerState)
    (fn e : String) (rest : List DiscResult) (hl : low j = false) :
    fetchNextGo low (fuel + 1) j s ((fn, some e) :: rest) =
      some (true, { s with err := some e }) := by
  simp only [fetchNextGo, hl, Bool.false_eq_true, if_false, wait_error_first]
  simp

end ConsumerLemmas

section RetryTopLemmas

/-- The standby marker is classified transient. -/
theorem retriable_standby : retriable standbyMarker = true := by decide

/-- The loop never makes more extra attempts than its remaining budget. -/
theorem withRetryGo_extra_le (attempts : Nat → Option String) :
    ∀ rem k err, (withRetryGo attempts rem k err).2.1 ≤ rem := by
  intro rem
  induction rem with
  | zero =>
    intro k err
    cases err <;> simp [withRetryGo]
  | succ n ih =>
    intro k err
    cases err with
    | none => simp [withRetryGo]
    | some e =>
      by_cases he : retriable e = true
      · rw [withRetryGo_step attempts n k e he]
        have := ih (k + 1) (attempts k)
        simpa using Nat.add_le_add_right this 1
      · rw [withRetryGo_nonretriable attempts (n + 1) k e (by simpa using he)]
        simp

/-- The total sleep is exactly one fixed interval per extra attempt. -/
theorem withRetryGo_sleep_per_attempt (attempts : Nat → Option String) :
    ∀ rem k err,
      (withRetryGo attempts rem k err).2.2 =
        (withRetryGo attempts rem k err).2.1 * retryIntervalMs := by
  intro rem
  induction rem with
  | zero =>
    intro k err
    cases err <;> simp [withRetryGo]
  | succ n ih =>
    intro k err
    cases err with
    | none => simp [withRetryGo]
    | some e =>
      by_cases he : retriable e = true
      · rw [withRetryGo_step attempts n k e he]
        simp only [ih (k + 1) (attempts k)]
        ring
      · rw [withRetryGo_nonretriable attempts (n + 1) k e (by simpa using he)]
        simp

/-- If every attempt within the budget fails transiently, `withRetry` makes
all `retryTimeout*10` extra attempts, sleeps through the whole budget, and
returns the error of the last attempt. -/
theorem withRetry_all_fail (attempts : Nat → Option String)
    (h : ∀ k, k ≤ retryTimeout * 10 → ∃ e, attempts k = some e ∧ retriable e = true) :
    withRetry attempts =
      (attempts (retryTimeout * 10), retryTimeout * 10,
       retryTimeout * 10 * retryIntervalMs) := by
  unfold withRetry
  obtain ⟨e0, he0, hre0⟩ := h 0 (by omega)
  rw [he0]
  have h' : ∀ j, j < retryTimeout * 10 →
      ∃ e, attempts (1 + j) = some e ∧ retriable e = true := by
    intro j hj
    exact h (1 + j) (by omega)
  rw [withRetryGo_all_transient attempts (retryTimeout * 10) 1 h' e0 hre0]
  have hne : retryTimeout * 10 ≠ 0 := by decide
  rw [if_neg hne]
  have h2 : 1 + retryTimeout * 10 - 1 = retryTimeout * 10 := by omega
  rw [h2]

/-- If the first `j` attempts fail transiently and attempt `j` succeeds,
`withRetry` returns nil after exactly `j` extra attempts and `j` sleeps. -/
theorem withRetry_none_at (attempts : Nat → Option String) (j : Nat)
    (hj : j ≤ retryTimeout * 10)
    (hall : ∀ i, i < j → ∃ e, attempts i = some e ∧ retriable e = true)
    (hnil : attempts j = none) :
    withRetry attempts = (none, j, j * retryIntervalMs) := by
  unfold withRetry
  cases j with
  | zero =>
    rw [hnil, withRetryGo_none]
    simp
  | succ m =>
    obtain ⟨e0, he0, hre0⟩ := hall 0 (Nat.succ_pos m)
    rw [he0]
    have hall' : ∀ i, i < m → ∃ e, attempts (1 + i) = some e ∧ retriable e = true := by
      intro i hi
      have := hall (i + 1) (by omega)
      simpa [Nat.add_comm] using this
    have hstop : ∀ e, attempts (1 + m) = some e → retriable e = false := by
      intro e he
      rw [Nat.add_comm, hnil] at he
      exact Option.noConfusion he
    rw [withRetryGo_stops attempts m (retryTimeout * 10) 1 e0 hre0 (by omega) hall' hstop]
    rw [Nat.add_comm 1 m, hnil]

/-- If the first `j ≥ 1` attempts fail transiently and attempt `j` fails
with a non-transient error, `withRetry` stops right there: `j` extra
attempts, `j` sleeps, returning that error with budget left over. -/
theorem withRetry_nonretriable_at (attempts : Nat → Option String) (j : Nat)
    (h1 : 1 ≤ j) (hj : j ≤ retryTimeout * 10)
    (hall : ∀ i, i < j → ∃ e, attempts i = some e ∧ retriable e = true)
    (e : String) (hje : attempts j = some e) (hre : retriable e = false) :
    withRetry attempts = (some e, j, j * retryIntervalMs) := by
  unfold withRetry
  obtain ⟨m, rfl⟩ : ∃ m, j = m + 1 := ⟨j - 1, by omega⟩
  obtain ⟨e0, he0, hre0⟩ := hall 0 (Nat.succ_pos m)
  rw [he0]
  have hall' : ∀ i, i < m → ∃ e, attempts (1 + i) = some e ∧ retriable e = true := by
    intro i hi
    have := hall (i + 1) (by omega)
    simpa [Nat.add_comm] using this
  have hstop : ∀ e', attempts (1 + m) = some e' → retriable e' = false := by
    intro e' he'
    rw [Nat.add_comm, hje] at he'
    rw [← Option.some.inj he']
    exact hre
  rw [withRetryGo_stops attempts m (retryTimeout * 10) 1 e0 hre0 (by omega) hall' hstop]
  rw [Nat.add_comm 1 m, hje]

end RetryTopLemmas

/-!
Concrete collaborators used to instantiate the theorems below.
-/

/-- A write client whose append always succeeds. -/
def wcAppendOk : WriteClient :=
  { append := fun _ => .ok 7, create := fun _ => .error "create unused" }

/-- A write client whose append fails and whose create succeeds. -/
def wcAppendFail : WriteClient :=
  { append := fun _ => .error "append failed", create := fun _ => .ok 9 }

/-- A write client whose append and create both fail, with distinct errors. -/
def wcBothFail : WriteClient :=
  { append := fun _ => .error "append denied", create := fun _ => .error "create denied" }

/-- A metadata client whose first mkdir attempt fails transiently and whose
second succeeds. -/
def mcTransientOnce : MetaClient :=
  { mkdirAllA := fun _ k => if k = 0 then some standbyMarker else none,
    renameA := fun _ _ _ => none,
    removeA := fun _ _ => none,
    closeA := fun _ => none }

/-- A one-file read-side filesystem: `"f"` holds the bytes 10, 20, 30. -/
def fsOneFile : String → Option (List Nat) :=
  fun n => if n = "f" then some [10, 20, 30] else none

/-- Claim C3: for every operation failing with a transiently-classified error
on every attempt, the retry wrapper sleeps the fixed 100 ms interval between
attempts, performs at most `retryTimeout*10 = 100` extra attempts after the
first (total attempts ≤ budget/interval + 1 with the 10-second default
budget), and returns the failure of the last attempt once the budget is
exhausted; it returns success as soon as any attempt succeeds. -/
theorem C3_retry_budget :
    (∀ attempts : Nat → Option String,
      (∀ k, k ≤ retryTimeout * 10 → ∃ e, attempts k = some e ∧ retriable e = true) →
      withRetry attempts =
        (attempts (retryTimeout * 10), retryTimeout * 10,
         retryTimeout * 10 * retryIntervalMs)) ∧
    (∀ attempts : Nat → Option String, ∀ j, j ≤ retryTimeout * 10 →
      (∀ i, i < j → ∃ e, attempts i = some e ∧ retriable e = true) →
      attempts j = none →
      withRetry attempts = (none, j, j * retryIntervalMs)) ∧
    (∀ attempts : Nat → Option String,
      (withRetry attempts).2.1 ≤ retryTimeout * 10 ∧
      (withRetry attempts).2.2 = (withRetry attempts).2.1 * retryIntervalMs) ∧
    retryTimeout * 10 = 100 ∧ retryIntervalMs = 100 :=
  ⟨withRetry_all_fail,
   fun attempts j hj hall hnil => withRetry_none_at attempts j hj hall hnil,
   fun attempts =>
     ⟨withRetryGo_extra_le attempts (retryTimeout * 10) 1 (attempts 0),
      withRetryGo_sleep_per_attempt attempts (retryTimeout * 10) 1 (attempts 0)⟩,
   rfl, rfl⟩

theorem C3_retry_budget_witness :
    withRetry (fun _ => some standbyMarker) =
      (some standbyMarker, retryTimeout * 10, retryTimeout * 10 * retryIntervalMs) ∧
    withRetry (fun k => if k = 0 then some standbyMarker else none) =
      (none, 1, 1 * retryIntervalMs) := by
  constructor
  · exact C3_retry_budget.1 (fun _ => some standbyMarker)
      (fun k _ => ⟨standbyMarker, rfl, retriable_standby⟩)
  · exact C3_retry_budget.2.1 (fun k => if k = 0 then some standbyMarker else none) 1
      (by decide)
      (fun i hi => by
        have hi0 : i = 0 := by omega
        subst hi0
        exact ⟨standbyMarker, rfl, retriable_standby⟩)
      rfl

/-- Claim C4: a failure is classified transient iff its text contains one of
the two known transient markers; an operation whose first failure is
non-transient is returned at once — no sleep, no retry. -/
theorem C4_nonretriable_first_attempt :
    (∀ e, retriable e = true ↔
      (containsSub e standbyMarker = true ∨ containsSub e retriableMarker = true)) ∧
    (∀ attempts : Nat → Option String, ∀ e, attempts 0 = some e →
      retriable e = false → withRetry attempts = (some e, 0, 0)) := by
  constructor
  · intro e
    simp [retriable, Bool.or_eq_true]
  · intro attempts e h0 hre
    unfold withRetry
    rw [h0, withRetryGo_nonretriable attempts _ 1 e hre]

theorem C4_nonretriable_first_attempt_witness :
    retriable standbyMarker = true ∧
    withRetry (fun _ => some "permission denied") = (some "permission denied", 0, 0) :=
  ⟨(C4_nonretriable_first_attempt.1 standbyMarker).mpr (Or.inl (by decide)),
   C4_nonretriable_first_attempt.2 (fun _ => some "permission denied")
     "permission denied" rfl (by decide)⟩

/-- Claim C10: the error is re-classified after every attempt: a retry that
fails non-transiently stops the loop at once (no further sleeps although the
budget is not exhausted), and a nil result stops it at once with success. -/
theorem C10_reclassified_every_attempt :
    (∀ attempts : Nat → Option String, ∀ j, 1 ≤ j → j ≤ retryTimeout * 10 →
      (∀ i, i < j → ∃ e, attempts i = some e ∧ retriable e = true) →
      ∀ e, attempts j = some e → retriable e = false →
      withRetry attempts = (some e, j, j * retryIntervalMs)) ∧
    (∀ attempts : Nat → Option String, ∀ j, 1 ≤ j → j ≤ retryTimeout * 10 →
      (∀ i, i < j → ∃ e, attempts i = some e ∧ retriable e = true) →
      attempts j = none →
      withRetry attempts = (none, j, j * retryIntervalMs)) :=
  ⟨fun attempts j h1 hj hall e hje hre =>
     withRetry_nonretriable_at attempts j h1 hj hall e hje hre,
   fun attempts j _ hj hall hnil => withRetry_none_at attempts j hj hall hnil⟩

theorem C10_reclassified_every_attempt_witness :
    withRetry (fun k => if k = 0 then some standbyMarker else some "permanent failure") =
      (some "permanent failure", 1, 1 * retryIntervalMs) ∧
    withRetry (fun k => if k ≤ 1 then some standbyMarker else none) =
      (none, 2, 2 * retryIntervalMs) := by
  constructor
  · exact C10_reclassified_every_attempt.1
      (fun k => if k = 0 then some standbyMarker else some "permanent failure") 1
      (by decide) (by decide)
      (fun i hi => by
        have hi0 : i = 0 := by omega
        subst hi0
        exact ⟨standbyMarker, rfl, retriable_standby⟩)
      "permanent failure" rfl (by decide)
  · exact C10_reclassified_every_attempt.2
      (fun k => if k ≤ 1 then some standbyMarker else none) 2
      (by decide) (by decide)
      (fun i hi => by
        have : i = 0 ∨ i = 1 := by omega
        rcases this with h | h <;> subst h <;>
          exact ⟨standbyMarker, rfl, retriable_standby⟩)
      rfl

/-- Claim C1: the spec says `FetchNext` returns `false` exactly when
discovery reports cancellation (empty candidate, nil error), the consumer
then exiting its wait loop.  The code disagrees: `waitAndOpenNextFile`
(hdfs.go:137-154) has no `return false` path at all, so under the
cancellation stream the wait loop sleeps and spins forever and `FetchNext`
never returns — in particular it can never return `false`, leaving the
`return false //context canceled, no message` branch of `FetchNext`
(hdfs.go:163) unreachable. -/
theorem C1_fetchNext_never_false :
    (∀ fuel j s n,
      fetchNextGo (fun _ => false) fuel j s (cancelStream n) = none) ∧
    (∀ low fuel j s ds b s2,
      fetchNextGo low fuel j s ds = some (b, s2) → b = true) ∧
    (∀ s n, waitAndOpenNextFile s (cancelStream n) = (none, [], n * backoffMs)) :=
  ⟨fetchNextGo_cancel,
   fun low fuel j s ds b s2 h => fetchNextGo_true low fuel j s ds b s2 h,
   fun s n => wait_cancel s n⟩

theorem C1_fetchNext_never_false_witness :
    fetchNextGo (fun _ => false) 3 0 initialState (cancelStream 5) = none ∧
    true = true ∧
    waitAndOpenNextFile initialState (cancelStream 2) = (none, [], 2 * backoffMs) :=
  ⟨C1_fetchNext_never_false.1 3 0 initialState 5,
   C1_fetchNext_never_false.2.1 (fun _ => true) 1 0 initialState [] true initialState rfl,
   C1_fetchNext_never_false.2.2 initialState 2⟩

/-- Claim C2: the consumer never opens a candidate carrying the in-progress
suffix marker; while discovery only shows in-progress candidates it sleeps
the fixed 200 ms backoff per poll and retries, and the first finalized
candidate discovery returns is opened at offset 0. -/
theorem C2_no_in_progress_open :
    (∀ s ds b s2, (waitAndOpenNextFile s ds).1 = some (b, s2) →
      ∀ q ∈ s2.opens,
        q ∈ s.opens ∨ (q.1 ≠ "" ∧ hasSuffix q.1 inProgressMark = false ∧ q.2 = 0)) ∧
    (∀ s (pre : List DiscResult),
      (∀ d ∈ pre, d.2 = none ∧ hasSuffix d.1 inProgressMark = true) →
      ∀ g rest, g ≠ "" → hasSuffix g inProgressMark = false →
      waitAndOpenNextFile s (pre ++ (g, none) :: rest) =
        (some (true, openFile s g 0), rest, pre.length * backoffMs)) ∧
    backoffMs = 200 :=
  ⟨fun s => wait_opens_ok s, fun s => wait_poll_then_open s, rfl⟩

theorem C2_no_in_progress_open_witness :
    (("topic/f1", (0 : Nat)) ∈ initialState.opens ∨
      (("topic/f1", (0 : Nat)).1 ≠ "" ∧
       hasSuffix ("topic/f1", (0 : Nat)).1 inProgressMark = false ∧
       ("topic/f1", (0 : Nat)).2 = 0)) ∧
    waitAndOpenNextFile initialState [("topic/f1.open", none), ("topic/f1", none)] =
      (some (true, openFile initialState "topic/f1" 0), [], 1 * backoffMs) := by
  constructor
  · exact C2_no_in_progress_open.1 initialState
      [("topic/f1.open", none), ("topic/f1", none)]
      true (openFile initialState "topic/f1" 0) (by decide) ("topic/f1", 0) (by decide)
  · exact C2_no_in_progress_open.2.1 initialState [("topic/f1.open", none)]
      (by decide) "topic/f1" [] (by decide) (by decide)

/-- Claim C7: whenever discovery returns a non-nil error, the consumer
stores it on itself (`p.err`) and `FetchNext` returns `true`, so a `true`
result does not always mean real data — the error accessor must be
checked. -/
theorem C7_error_reported_as_true :
    ∀ low fuel j s fn e rest, low j = false →
      waitAndOpenNextFile s ((fn, some e) :: rest) =
        (some (true, { s with err := some e }), rest, 0) ∧
      fetchNextGo low (fuel + 1) j s ((fn, some e) :: rest) =
        some (true, { s with err := some e }) ∧
      ({ s with err := some e } : ConsumerState).err = some e :=
  fun low fuel j s fn e rest hl =>
    ⟨wait_error_first s fn e rest, fetch_error_first low fuel j s fn e rest hl, rfl⟩

theorem C7_error_reported_as_true_witness :
    waitAndOpenNextFile initialState [("x", some "discovery failed")] =
      (some (true, { initialState with err := some "discovery failed" }), [], 0) ∧
    fetchNextGo (fun _ => false) 1 0 initialState [("x", some "discovery failed")] =
      some (true, { initialState with err := some "discovery failed" }) ∧
    ({ initialState with err := some "discovery failed" } : ConsumerState).err =
      some "discovery failed" :=
  C7_error_reported_as_true (fun _ => false) 0 0 initialState "x" "discovery failed" [] rfl

/-- Claim C5: `OpenWrite` tries append first and falls back to create only
when append fails; the returned seeker is always nil; on append success no
create call happens (the branch is chosen solely by the append outcome), on
append failure exactly one create call follows. -/
theorem C5_openwrite_append_then_create :
    ∀ c name,
      (OpenWrite c name).1.2.1 = none ∧
      (∃ t, (OpenWrite c name).2 = HCall.append name :: t) ∧
      (∀ f, c.append name = .ok f →
        OpenWrite c name = ((some f, none, none), [HCall.append name])) ∧
      (∀ ea, c.append name = .error ea →
        (OpenWrite c name).2 = [HCall.append name, HCall.create name]) := by
  intro c name
  cases ha : c.append name with
  | ok f =>
    refine ⟨?_, ⟨[], ?_⟩, ?_, ?_⟩ <;> simp [OpenWrite, ha]
  | error ea =>
    cases hc : c.create name with
    | ok f =>
      refine ⟨?_, ⟨[HCall.create name], ?_⟩, ?_, ?_⟩ <;> simp [OpenWrite, ha, hc]
    | error ec =>
      refine ⟨?_, ⟨[HCall.create name], ?_⟩, ?_, ?_⟩ <;> simp [OpenWrite, ha, hc]

theorem C5_openwrite_append_then_create_witness :
    (OpenWrite wcAppendOk "f").1.2.1 = none ∧
    OpenWrite wcAppendOk "f" = ((some 7, none, none), [HCall.append "f"]) ∧
    (OpenWrite wcAppendFail "f").2 = [HCall.append "f", HCall.create "f"] :=
  ⟨(C5_openwrite_append_then_create wcAppendOk "f").1,
   (C5_openwrite_append_then_create wcAppendOk "f").2.2.1 7 rfl,
   (C5_openwrite_append_then_create wcAppendFail "f").2.2.2 "append failed" rfl⟩

/-- Claim C9: the create fallback runs after any append failure, not only
non-existence; append-fail + create-ok yields the created stream with a nil
error, and when both fail the create error is returned, the append error
being discarded. -/
theorem C9_fallback_on_any_failure :
    ∀ c name,
      (∀ ea f, c.append name = .error ea → c.create name = .ok f →
        OpenWrite c name = ((some f, none, none), [HCall.append name, HCall.create name])) ∧
      (∀ ea ec, c.append name = .error ea → c.create name = .error ec →
        OpenWrite c name = ((none, none, some ec), [HCall.append name, HCall.create name])) := by
  intro c name
  constructor
  · intro ea f ha hc
    simp [OpenWrite, ha, hc]
  · intro ea ec ha hc
    simp [OpenWrite, ha, hc]

theorem C9_fallback_on_any_failure_witness :
    OpenWrite wcAppendFail "f" = ((some 9, none, none), [HCall.append "f", HCall.create "f"]) ∧
    OpenWrite wcBothFail "f" =
      ((none, none, some "create denied"), [HCall.append "f", HCall.create "f"]) :=
  ⟨(C9_fallback_on_any_failure wcAppendFail "f").1 "append failed" 9 rfl rfl,
   (C9_fallback_on_any_failure wcBothFail "f").2 "append denied" "create denied" rfl rfl⟩

/-- Claim C6: `OpenRead` opens the file and seeks to the offset, so the
first byte read from the returned stream is the byte at that offset; a
missing file or a seek past the file length yields an error and no stream,
propagating the underlying failure. -/
theorem C6_openread_positions_stream :
    ∀ files name off,
      (files name = none →
        OpenRead files name off = (.error "file does not exist", [HCall.openR name])) ∧
      (∀ c, files name = some c → c.length < off →
        OpenRead files name off =
          (.error "seek target exceeds file length", [HCall.openR name, HCall.seek off])) ∧
      (∀ c, files name = some c → off ≤ c.length →
        OpenRead files name off = (.ok ⟨c, off⟩, [HCall.openR name, HCall.seek off]) ∧
        ∀ b, c.get? off = some b →
          readByte ⟨c, off⟩ = some (b, ⟨c, off + 1⟩)) := by
  intro files name off
  refine ⟨?_, ?_, ?_⟩
  · intro h
    simp [OpenRead, clientOpen, h]
  · intro c h hlen
    simp [OpenRead, clientOpen, h, fileSeek, Nat.not_le.mpr hlen]
  · intro c h hle
    constructor
    · simp [OpenRead, clientOpen, h, fileSeek, hle]
    · intro b hb
      rw [List.get?_eq_getElem?] at hb
      simp [readByte, hb]

theorem C6_openread_positions_stream_witness :
    OpenRead fsOneFile "g" 0 = (.error "file does not exist", [HCall.openR "g"]) ∧
    OpenRead fsOneFile "f" 5 =
      (.error "seek target exceeds file length", [HCall.openR "f", HCall.seek 5]) ∧
    OpenRead fsOneFile "f" 1 = (.ok ⟨[10, 20, 30], 1⟩, [HCall.openR "f", HCall.seek 1]) ∧
    readByte ⟨[10, 20, 30], 1⟩ = some (20, ⟨[10, 20, 30], 2⟩) := by
  refine ⟨(C6_openread_positions_stream fsOneFile "g" 0).1 rfl,
    (C6_openread_positions_stream fsOneFile "f" 5).2.1 [10, 20, 30] rfl (by decide),
    ((C6_openread_positions_stream fsOneFile "f" 1).2.2 [10, 20, 30] rfl (by decide)).1,
    ((C6_openread_positions_stream fsOneFile "f" 1).2.2 [10, 20, 30] rfl (by decide)).2
      20 rfl⟩

/-- Claim C8: directory creation, rename, remove and write-stream close are
each routed through the retry wrapper (and so recover a transient failure),
while `OpenRead` and `OpenWrite` never sleep and invoke each underlying
stream primitive at most once, whatever the client returns. -/
theorem C8_metadata_retry_routing :
    (∀ c path, MkdirAll c path = withRetry (c.mkdirAllA path)) ∧
    (∀ c o n, Rename c o n = withRetry (c.renameA o n)) ∧
    (∀ c path, Remove c path = withRetry (c.removeA path)) ∧
    (∀ c, Close c = withRetry c.closeA) ∧
    (∀ c path e, c.mkdirAllA path 0 = some e → retriable e = true →
      c.mkdirAllA path 1 = none →
      MkdirAll c path = (none, 1, 1 * retryIntervalMs)) ∧
    (∀ files name off,
      (∀ ms, HCall.sleep ms ∉ (OpenRead files name off).2) ∧
      (OpenRead files name off).2.count (HCall.openR name) = 1) ∧
    (∀ c name,
      (∀ ms, HCall.sleep ms ∉ (OpenWrite c name).2) ∧
      (OpenWrite c name).2.count (HCall.append name) = 1 ∧
      (OpenWrite c name).2.count (HCall.create name) ≤ 1) := by
  refine ⟨fun c path => rfl, fun c o n => rfl, fun c path => rfl, fun c => rfl,
    ?_, ?_, ?_⟩
  · intro c path e h0 hre h1
    show withRetry (c.mkdirAllA path) = (none, 1, 1 * retryIntervalMs)
    refine withRetry_none_at (c.mkdirAllA path) 1 (by decide) ?_ h1
    intro i hi
    have hi0 : i = 0 := by omega
    subst hi0
    exact ⟨e, h0, hre⟩
  · intro files name off
    cases h : files name with
    | none =>
      constructor
      · intro ms
        simp [OpenRead, clientOpen, h]
      · simp [OpenRead, clientOpen, h]
    | some c =>
      by_cases hle : off ≤ c.length
      · constructor
        · intro ms
          simp [OpenRead, clientOpen, h, fileSeek, hle]
        · simp [OpenRead, clientOpen, h, fileSeek, hle]
      · constructor
        · intro ms
          simp [OpenRead, clientOpen, h, fileSeek, hle]
        · simp [OpenRead, clientOpen, h, fileSeek, hle]
  · intro c name
    cases ha : c.append name with
    | ok f =>
      refine ⟨fun ms => ?_, ?_, ?_⟩ <;> simp [OpenWrite, ha]
    | error ea =>
      cases hc : c.create name with
      | ok f =>
        refine ⟨fun ms => ?_, ?_, ?_⟩ <;> simp [OpenWrite, ha, hc]
      | error ec =>
        refine ⟨fun ms => ?_, ?_, ?_⟩ <;> simp [OpenWrite, ha, hc]

theorem C8_metadata_retry_routing_witness :
    MkdirAll mcTransientOnce "dir" = (none, 1, 1 * retryIntervalMs) ∧
    MkdirAll mcTransientOnce "dir" = withRetry (mcTransientOnce.mkdirAllA "dir") ∧
    (OpenRead fsOneFile "f" 0).2.count (HCall.openR "f") = 1 :=
  ⟨C8_metadata_retry_routing.2.2.2.2.1 mcTransientOnce "dir" standbyMarker rfl
     retriable_standby rfl,
   C8_metadata_retry_routing.1 mcTransientOnce "dir",
   (C8_metadata_retry_routing.2.2.2.2.2.1 fsOneFile "f" 0).2⟩
